import Mathlib

/-!
Verification development for the GC_AI mortgage-guideline extraction product.

The repository's visible source is the React presentation layer (ingest page,
compare page, settings page).  Its handlers are embedded below directly from
the JavaScript source.  The document-extraction orchestration engine that the
UI calls (chunker, worker pool, progress tracker, result merger, session
store, spreadsheet exporter) is not part of the visible source; following the
specification document, those components are modelled here from the spec's
own words, and every such definition is marked `Modelled from the spec:`.
-/

/- ===================== JavaScript value model ===================== -/

/-- Model of a JavaScript runtime value, as needed by the compare page's
preview normalizer.  `null` and `undefined` are the two nullish values; property
access on them throws a TypeError, while property access on any other
non-object value evaluates to `undefined`. -/
inductive JSVal where
  | null
  | undefined
  | jbool (b : Bool)
  | num (n : Int)
  | str (s : String)
  | arr (elems : List JSVal)
  | obj (fields : List (String × JSVal))

/-- Truthiness of a JavaScript value (`Boolean(v)`): `null`, `undefined`,
`false`, `0` and `""` are falsy; every object and array is truthy. -/
def truthy : JSVal → Bool
  | .null => false
  | .undefined => false
  | .jbool b => b
  | .num n => n != 0
  | .str s => !s.isEmpty
  | .arr _ => true
  | .obj _ => true

/-- JavaScript short-circuit `v || w`: returns `v` when truthy, else `w`. -/
def jsOr (v w : JSVal) : JSVal := if truthy v then v else w

/-- Property access `v[k]`: throws a TypeError on `null`/`undefined`, looks
the key up on an object (missing key gives `undefined`), and gives
`undefined` on every other value. -/
def getProp : JSVal → String → Except String JSVal
  | .null, _ => .error "TypeError"
  | .undefined, _ => .error "TypeError"
  | .obj fields, k => .ok ((fields.lookup k).getD .undefined)
  | .jbool _, _ => .ok .undefined
  | .num _, _ => .ok .undefined
  | .str _, _ => .ok .undefined
  | .arr _, _ => .ok .undefined

/- ===================== Compare page preview normalizer ===================== -/

/-- One row of the compare page's antd table, as built by
`convertToTableData` (ComparePage, `data.map((item, idx) => ({key: idx, ...}))`).
The JavaScript field `section` is rendered here as `sectionTitle` because
`section` is reserved in Lean. -/
structure TableRow where
  key : Nat
  category : JSVal
  sectionTitle : JSVal
  guideline1_value : JSVal
  guideline2_value : JSVal
  difference : JSVal

/-- Body of the arrow function passed to `data.map` inside
`convertToTableData`: builds one table row from `item` at index `idx`, each
field defaulted with `item.f || ""`.  Property access may throw when `item`
is nullish, hence the `Except`. -/
def convertItem (idx : Nat) (item : JSVal) : Except String TableRow := do
  let c ← getProp item "category"
  let s ← getProp item "section"
  let g1 ← getProp item "guideline1_value"
  let g2 ← getProp item "guideline2_value"
  let d ← getProp item "difference"
  .ok { key := idx
        category := jsOr c (.str "")
        sectionTitle := jsOr s (.str "")
        guideline1_value := jsOr g1 (.str "")
        guideline2_value := jsOr g2 (.str "")
        difference := jsOr d (.str "") }

/-- Sequential elaboration of `data.map((item, idx) => ...)`: the first
thrown TypeError aborts the whole call, as in JavaScript. -/
def convertItems (idx : Nat) : List JSVal → Except String (List TableRow)
  | [] => .ok []
  | item :: rest => do
    let r ← convertItem idx item
    let rs ← convertItems (idx + 1) rest
    .ok (r :: rs)

/-- ComparePage `convertToTableData`: `if (!data || !Array.isArray(data))
return []`, otherwise map each element to a table row keyed by its index. -/
def convertToTableData (data : JSVal) : Except String (List TableRow) :=
  match data with
  | .arr elems => convertItems 0 elems
  | _ => .ok []

/-- Helper predicate for the amended claim about `convertToTableData`: the
normalizer replaces each of the five semantic fields by the empty string when
the field is absent on the source item. -/
def defaultsOk (item : JSVal) (r : TableRow) : Prop :=
  (getProp item "category" = .ok .undefined → r.category = .str "") ∧
  (getProp item "section" = .ok .undefined → r.sectionTitle = .str "") ∧
  (getProp item "guideline1_value" = .ok .undefined → r.guideline1_value = .str "") ∧
  (getProp item "guideline2_value" = .ok .undefined → r.guideline2_value = .str "") ∧
  (getProp item "difference" = .ok .undefined → r.difference = .str "")

/- ===================== Compare page table columns ===================== -/

/-- One antd column descriptor, keeping the `title`, `dataIndex` and `width`
props of the `columns` array in ComparePage. -/
structure TableColumn where
  title : String
  dataIndex : String
  width : Nat

/-- ComparePage `columns` array (title of the middle columns is the uploaded
file's name when present, a placeholder otherwise; the resolved title is
taken as a parameter). -/
def compareColumns (file1Title file2Title : String) : List TableColumn :=
  [ { title := "Category", dataIndex := "category", width := 120 },
    { title := "Section", dataIndex := "section", width := 220 },
    { title := file1Title, dataIndex := "guideline1_value", width := 350 },
    { title := file2Title, dataIndex := "guideline2_value", width := 350 },
    { title := "Difference", dataIndex := "difference", width := 300 } ]

/- ===================== Ingest page file picker ===================== -/

/-- Model of a browser `File` object: its name and its MIME type string. -/
structure JSFile where
  name : String
  type : String
deriving DecidableEq

/-- IngestPage `handleFileSelect`: reads `event.target.files[0]`; when a file
was chosen and its type is not `application/pdf` the handler only shows an
error toast and returns, leaving the selected-file state untouched; a PDF is
stored with `setFile(selectedFile)`.  The handler is modelled as a function
from the event's file list and the current selected-file state to the new
selected-file state. -/
def handleFileSelect (files : List JSFile) (cur : Option JSFile) : Option JSFile :=
  match files.head? with
  | none => cur
  | some f => if f.type = "application/pdf" then some f else cur

/- ===================== Progress stream consumer ===================== -/

/-- Payload of one server-sent progress event, `{progress, message}`. -/
structure ProgressEvent where
  progress : Int
  message : String

/-- Component state touched by the SSE callbacks of the ingest and compare
pages: the displayed progress and message, the processing flag, the
processing-modal flag, and whether the consumer has closed the stream. -/
structure ConsumerState where
  progress : Int
  progressMessage : String
  processing : Bool
  modalVisible : Bool
  streamClosed : Bool

/-- The `eventSource.onmessage` callback: stores the event's progress and
message, and only when `data.progress >= 100` closes the stream, clears the
processing flag and hides the modal. -/
def onProgressMessage (d : ProgressEvent) (st : ConsumerState) : ConsumerState :=
  let st1 := { st with progress := d.progress, progressMessage := d.message }
  if 100 ≤ d.progress then
    { st1 with streamClosed := true, processing := false, modalVisible := false }
  else st1

/-- The `eventSource.onerror` callback: closes the stream unconditionally,
clears the processing flag and hides the modal. -/
def onProgressError (st : ConsumerState) : ConsumerState :=
  { st with streamClosed := true, processing := false, modalVisible := false }

/- ===================== Extraction engine (spec-modelled) ===================== -/

/-- Modelled from the spec: one structured row of an ingest MergedResult,
with the `{major_section, subsection, summary}` schema of section 4.7.  The
engine producing these rows is not part of the visible source. -/
structure IngestRow where
  major_section : String
  subsection : String
  summary : String
deriving DecidableEq

/-- Modelled from the spec: one categorized diff entry of a compare
MergedResult, with the `{category, section, doc1_value, doc2_value,
difference}` schema (the category is the literal string used in the wire
format).  The diff engine is not part of the visible source. -/
structure DiffEntry where
  category : String
  sectionTitle : String
  doc1_value : String
  doc2_value : String
  difference : String
deriving DecidableEq

/-- Modelled from the spec: classification of one aligned semantic unit of a
compare job, section 4.5 — `Added` if present only in document 2, `Removed`
if present only in document 1, `Unchanged` if both sides exist and agree,
`Modified` if both sides exist and differ. -/
def classifyDiff (v1 v2 : Option String) : String :=
  match v1, v2 with
  | none, some _ => "Added"
  | some _, none => "Removed"
  | some a, some b => if a = b then "Unchanged" else "Modified"
  | none, none => "Unchanged"

/-- Modelled from the spec: construction of one diff entry from an aligned
pair of section values, a side absent from a document being rendered as
"Not present" as in the comparison prompt's examples. -/
def mkDiffEntry (sec : String) (v1 v2 : Option String) (expl : String) : DiffEntry :=
  { category := classifyDiff v1 v2
    sectionTitle := sec
    doc1_value := v1.getD "Not present"
    doc2_value := v2.getD "Not present"
    difference := expl }

/-- Modelled from the spec: the final, order-stable structured output of a
job — a flat ordered list of rows for ingest, of diff entries for compare. -/
inductive MergedResultData where
  | ingest (rows : List IngestRow)
  | compare (entries : List DiffEntry)

/-- Fixed ingest column order of section 4.7. -/
def ingestHeader : List String := ["major_section", "subsection", "summary"]

/-- Fixed compare column order of section 4.7. -/
def compareHeader : List String := ["category", "section", "doc1_value", "doc2_value", "difference"]

/-- Cells of one exported ingest row, in the fixed column order. -/
def ingestRowCells (r : IngestRow) : List String :=
  [r.major_section, r.subsection, r.summary]

/-- Cells of one exported diff entry, in the fixed column order. -/
def diffEntryCells (e : DiffEntry) : List String :=
  [e.category, e.sectionTitle, e.doc1_value, e.doc2_value, e.difference]

/-- Header row of the sheet for a given merged result. -/
def resultHeader : MergedResultData → List String
  | .ingest _ => ingestHeader
  | .compare _ => compareHeader

/-- Data rows of the sheet: one row per structured entry. -/
def resultDataRows : MergedResultData → List (List String)
  | .ingest rows => rows.map ingestRowCells
  | .compare entries => entries.map diffEntryCells

/-- Modelled from the spec: the Spreadsheet Exporter of section 4.7.  The
binary artifact is abstracted as a rectangular grid of cells; the
generation-timestamp metadata is its leading row. -/
def exportSpreadsheet (timestamp : String) (m : MergedResultData) : List (List String) :=
  ["generated_at", timestamp] :: resultHeader m :: resultDataRows m

/-- The sheet with its generation-timestamp metadata row excluded. -/
def sheetContent (sheet : List (List String)) : List (List String) :=
  sheet.drop 1

/-- Byte serialization of a sheet: cells joined by tabs, rows by newlines. -/
def serializeSheet (sheet : List (List String)) : String :=
  String.intercalate "\n" (sheet.map (String.intercalate "\t"))

/- ===================== Result merger (spec-modelled) ===================== -/

/-- Modelled from the spec: status of one extraction unit. -/
inductive UnitStatus where
  | ok
  | failed
deriving DecidableEq

/-- Modelled from the spec: an ExtractionUnitResult — the chunk's immutable
0-based sequence index, the unit's status, and its structured fragment. -/
structure UnitResult where
  idx : Nat
  status : UnitStatus
  rows : List IngestRow
deriving DecidableEq

/-- Fragment a unit result contributes to the merge: its rows when it
succeeded, nothing when the chunk was dropped after exhausting retries. -/
def fragmentOf (r : UnitResult) : List IngestRow :=
  match r.status with
  | .ok => r.rows
  | .failed => []

/-- Modelled from the spec: the Result Merger of section 4.5 restores
document order by walking the chunk sequence indices `start, start+1, ...`
and looking each index up among the completed unit results, concatenating
the fragments of successful units and leaving a gap for failed ones. -/
def mergeAux (rs : List UnitResult) : Nat → Nat → List IngestRow
  | _, 0 => []
  | start, k + 1 =>
    (match rs.find? (fun r => r.idx == start) with
     | some r => fragmentOf r
     | none => []) ++ mergeAux rs (start + 1) k

/-- Modelled from the spec: merge of the unit results of a session with `n`
chunks, in chunk-index order regardless of the completion order in `rs`. -/
def mergeResults (n : Nat) (rs : List UnitResult) : List IngestRow :=
  mergeAux rs 0 n

/- ===================== Chunker (spec-modelled) ===================== -/

/-- Fuel-indexed page-count chunker; the fuel only bounds the recursion and
`chunkPages` supplies enough of it for any document. -/
def chunkPagesAux (p : Nat) : Nat → List α → List (List α)
  | 0, _ => []
  | fuel + 1, doc =>
    if doc.isEmpty then []
    else doc.take p :: chunkPagesAux p fuel (doc.drop p)

/-- Modelled from the spec: the page-count chunk policy of section 4.1 —
`p` pages per chunk, chunks contiguous and collectively covering the whole
document. -/
def chunkPages (p : Nat) (doc : List α) : List (List α) :=
  chunkPagesAux p doc.length doc

/-- Fuel-indexed token-span chunker: from offset `start`, either one final
span `[start, len)` when the remainder fits in one chunk, or a span
`[start, start+size)` followed by the spans from `start + (size - overlap)`,
so that consecutive chunks share `overlap` trailing tokens. -/
def chunkSpansAux (size overlap len : Nat) : Nat → Nat → List (Nat × Nat)
  | 0, _ => []
  | fuel + 1, start =>
    if len ≤ start then []
    else if len ≤ start + size then [(start, len)]
    else (start, start + size) :: chunkSpansAux size overlap len fuel (start + (size - overlap))

/-- Modelled from the spec: the token-count chunk policy of section 4.1 with
explicit overlap — the ordered spans (half-open token intervals) of the
chunks of a document of `len` tokens. -/
def chunkSpans (size overlap len : Nat) : List (Nat × Nat) :=
  chunkSpansAux size overlap len len 0

/- ===================== Worker pool and progress tracker (spec-modelled) ===================== -/

/-- Modelled from the spec: the two terminal provider errors of section 4.2,
each of which aborts the entire job. -/
inductive FatalErr where
  | authError
  | quotaExceeded
deriving DecidableEq

/-- Modelled from the spec: the resolution of one chunk after the worker
pool's bounded retries — success with a fragment, exhausted retries (the
chunk is dropped with a warning), or a terminal provider error. -/
inductive Outcome where
  | success (rows : List IngestRow)
  | exhausted
  | fatal (e : FatalErr)
deriving DecidableEq

/-- Modelled from the spec: session status, section 4.4. -/
inductive SessionStatus where
  | pending
  | running
  | completed
  | failed
deriving DecidableEq

/-- Modelled from the spec: the per-session job state owned by the Session
Store — status, progress, completed-unit and warning counters, the sequence
of progress values published to the session's channel, the accumulated unit
results, the final merged result and the terminal error detail. -/
structure JobState where
  status : SessionStatus
  progress : Nat
  completed : Nat
  warnings : Nat
  published : List Nat
  results : List UnitResult
  result : Option (List IngestRow)
  errorDetail : Option FatalErr
deriving DecidableEq

/-- Modelled from the spec: a freshly created session — pending, progress 0,
nothing published, no results. -/
def initialJobState : JobState :=
  { status := .pending, progress := 0, completed := 0, warnings := 0,
    published := [], results := [], result := none, errorDetail := none }

/-- Modelled from the spec: bookkeeping on one unit completion (success or
exhausted-failure), section 4.4 — the completed counter is bumped, progress
is recalculated as `floor(100 * completedUnits / totalUnits)` and published,
the unit result is appended with the next sequence index, and an
exhausted-failure is counted as a warning. -/
def completeUnit (n : Nat) (ok : Bool) (rows : List IngestRow) (st : JobState) : JobState :=
  let c := st.completed + 1
  { st with
    status := .running
    completed := c
    progress := 100 * c / n
    published := st.published ++ [100 * c / n]
    results := st.results ++ [⟨st.results.length, if ok then .ok else .failed, rows⟩]
    warnings := st.warnings + (if ok then 0 else 1) }

/-- Modelled from the spec: the scheduler loop of sections 4.3-4.4 over the
per-chunk outcomes in completion order.  A terminal provider error halts the
loop at once: the session is marked failed with the error detail populated
and progress frozen, and no later chunk is processed. -/
def runJobAux (n : Nat) (st : JobState) : List Outcome → JobState
  | [] => st
  | o :: rest =>
    match o with
    | .fatal e => { st with status := .failed, errorDetail := some e }
    | .success rows => runJobAux n (completeUnit n true rows st) rest
    | .exhausted => runJobAux n (completeUnit n false [] st) rest

/-- Modelled from the spec: end of a job of `n` chunks.  A session felled by
a terminal provider error stays failed with its progress frozen; otherwise
the last outstanding unit has resolved, so the merger runs, the terminal
completion event is published and the session completes. -/
def finalizeJob (n : Nat) (st : JobState) : JobState :=
  if st.status = .failed then st
  else
    { st with
      status := .completed
      progress := 100 * st.completed / n
      published := st.published ++ [100 * st.completed / n]
      result := some (mergeResults n st.results) }

/-- Modelled from the spec: one whole job over `outs.length` chunks, from a
fresh session through the scheduler loop to finalization. -/
def runJob (outs : List Outcome) : JobState :=
  finalizeJob outs.length (runJobAux outs.length initialJobState outs)

/-- Whether any outcome of the list is a terminal provider error. -/
def hasFatal (outs : List Outcome) : Bool :=
  outs.any (fun o => match o with | .fatal _ => true | _ => false)

/-- Number of chunks that exhausted their retries. -/
def countExhausted (outs : List Outcome) : Nat :=
  outs.countP (fun o => match o with | .exhausted => true | _ => false)

/-- Concatenated fragments of the successful chunks, in document order. -/
def successRows : List Outcome → List IngestRow
  | [] => []
  | .success rows :: rest => rows ++ successRows rest
  | .exhausted :: rest => successRows rest
  | .fatal _ :: rest => successRows rest

/-- Unit results the sequential scheduler accumulates for a fatal-free
outcome list, the first chunk receiving sequence index `base`. -/
def buildResults (base : Nat) : List Outcome → List UnitResult
  | [] => []
  | .success rows :: rest => ⟨base, .ok, rows⟩ :: buildResults (base + 1) rest
  | .exhausted :: rest => ⟨base, .failed, []⟩ :: buildResults (base + 1) rest
  | .fatal _ :: _ => []

/-- Progress-tracker invariant carried through the scheduler loop: the
published sequence is non-decreasing, its last element is bounded by the
current progress, and the current progress is the floor formula of the
current completed counter. -/
def TrackerInv (n : Nat) (st : JobState) : Prop :=
  List.Chain' (· ≤ ·) st.published ∧
  (∀ x ∈ st.published.getLast?, x ≤ st.progress) ∧
  st.progress = 100 * st.completed / n

/- ===================== Theorems ===================== -/

/-- Claim C6: for every MergedResult, exporting twice yields byte-identical
spreadsheet content once the generation-timestamp metadata row is excluded —
export is a deterministic function of the rows and their order. -/
theorem exportSpreadsheet_idempotent (t1 t2 : String) (m : MergedResultData) :
    serializeSheet (sheetContent (exportSpreadsheet t1 m)) =
      serializeSheet (sheetContent (exportSpreadsheet t2 m)) := rfl

/-- Claim C8: the progress-stream consumer closes the stream on an event if
and only if the event's progress is at least 100, and closes it on a stream
error; on no event with progress below 100 is the stream closed. -/
theorem streamClosed_iff_progress_complete (st : ConsumerState) (d : ProgressEvent)
    (hopen : st.streamClosed = false) :
    ((onProgressMessage d st).streamClosed = true ↔ 100 ≤ d.progress) ∧
    (onProgressError st).streamClosed = true := by
  constructor
  · unfold onProgressMessage
    by_cases h : 100 ≤ d.progress
    · simp [h]
    · simp [h, hopen]
  · rfl

/-- Witness for C8 at a concrete open consumer state and a terminal event. -/
theorem streamClosed_iff_progress_complete_witness :
    (ConsumerState.mk 40 "processing" true true false).streamClosed = false ∧
    (((onProgressMessage ⟨100, "done"⟩ (ConsumerState.mk 40 "processing" true true false)).streamClosed = true ↔
        (100 : Int) ≤ 100) ∧
      (onProgressError (ConsumerState.mk 40 "processing" true true false)).streamClosed = true) :=
  ⟨rfl, streamClosed_iff_progress_complete (ConsumerState.mk 40 "processing" true true false) ⟨100, "done"⟩ rfl⟩

/-- Claim C10: when the chosen file's MIME type is not `application/pdf` the
ingest page's file handler leaves the selected-file state unchanged, and the
state is updated only when the chosen file's type is exactly
`application/pdf`. -/
theorem handleFileSelect_pdf_only (files : List JSFile) (cur : Option JSFile) (f : JSFile)
    (hf : files.head? = some f) (hnp : f.type ≠ "application/pdf") :
    handleFileSelect files cur = cur ∧
    ∀ files2 cur2, handleFileSelect files2 cur2 ≠ cur2 →
      ∃ g, files2.head? = some g ∧ g.type = "application/pdf" ∧
        handleFileSelect files2 cur2 = some g := by
  constructor
  · unfold handleFileSelect
    rw [hf]
    simp [hnp]
  · intro files2 cur2 hne
    cases h : files2.head? with
    | none =>
      exfalso; apply hne
      unfold handleFileSelect; rw [h]
    | some g =>
      by_cases hp : g.type = "application/pdf"
      · exact ⟨g, rfl, hp, by unfold handleFileSelect; rw [h]; simp [hp]⟩
      · exfalso; apply hne
        unfold handleFileSelect; rw [h]; simp [hp]

/-- Witness for C10: a text file is rejected and a previously attached PDF
is retained. -/
theorem handleFileSelect_pdf_only_witness :
    ([JSFile.mk "notes.txt" "text/plain"].head? = some (JSFile.mk "notes.txt" "text/plain")) ∧
    ((JSFile.mk "notes.txt" "text/plain").type ≠ "application/pdf") ∧
    (handleFileSelect [JSFile.mk "notes.txt" "text/plain"]
        (some (JSFile.mk "old.pdf" "application/pdf")) =
      some (JSFile.mk "old.pdf" "application/pdf") ∧
    ∀ files2 cur2, handleFileSelect files2 cur2 ≠ cur2 →
      ∃ g, files2.head? = some g ∧ g.type = "application/pdf" ∧
        handleFileSelect files2 cur2 = some g) :=
  ⟨rfl, by decide,
    handleFileSelect_pdf_only [JSFile.mk "notes.txt" "text/plain"]
      (some (JSFile.mk "old.pdf" "application/pdf"))
      (JSFile.mk "notes.txt" "text/plain") rfl (by decide)⟩

/-- Claim C7: a compare entry carries exactly the five semantic fields in
the fixed column order category, section, doc1_value, doc2_value,
difference — in the compare page's column array, in the exporter's compare
header and data rows — and the classifier only ever assigns one of the four
categories Added, Removed, Modified, Unchanged. -/
theorem compareEntry_schema (f1 f2 sec : String) (v1 v2 : Option String) (expl : String)
    (entries : List DiffEntry) :
    (compareColumns f1 f2).map (fun c => c.dataIndex) =
      ["category", "section", "guideline1_value", "guideline2_value", "difference"] ∧
    (mkDiffEntry sec v1 v2 expl).category ∈ ["Added", "Removed", "Modified", "Unchanged"] ∧
    resultHeader (MergedResultData.compare entries) = compareHeader ∧
    (∀ row ∈ resultDataRows (MergedResultData.compare entries), row.length = 5) := by
  refine ⟨rfl, ?_, rfl, ?_⟩
  · unfold mkDiffEntry classifyDiff
    cases v1 with
    | none => cases v2 <;> simp
    | some a =>
      cases v2 with
      | none => simp
      | some b => by_cases hab : a = b <;> simp [hab]
  · intro row hrow
    simp only [resultDataRows, List.mem_map] at hrow
    obtain ⟨e, _, rfl⟩ := hrow
    rfl

/-- Witness for C7 at a concrete modified entry and one-entry result. -/
theorem compareEntry_schema_witness :
    (compareColumns "g1.xlsx" "g2.xlsx").map (fun c => c.dataIndex) =
      ["category", "section", "guideline1_value", "guideline2_value", "difference"] ∧
    (mkDiffEntry "Credit Score" (some "min FICO 620") (some "min FICO 640") "threshold raised").category ∈
      ["Added", "Removed", "Modified", "Unchanged"] ∧
    resultHeader (MergedResultData.compare [mkDiffEntry "Credit Score" (some "min FICO 620") (some "min FICO 640") "threshold raised"]) = compareHeader ∧
    (∀ row ∈ resultDataRows (MergedResultData.compare [mkDiffEntry "Credit Score" (some "min FICO 620") (some "min FICO 640") "threshold raised"]), row.length = 5) :=
  compareEntry_schema "g1.xlsx" "g2.xlsx" "Credit Score" (some "min FICO 620") (some "min FICO 640")
    "threshold raised" [mkDiffEntry "Credit Score" (some "min FICO 620") (some "min FICO 640") "threshold raised"]

/-- Property access is total on any value that is neither null nor
undefined. -/
theorem getProp_ok (item : JSVal) (k : String)
    (h1 : item ≠ JSVal.null) (h2 : item ≠ JSVal.undefined) :
    ∃ w, getProp item k = Except.ok w := by
  cases item with
  | null => exact absurd rfl h1
  | undefined => exact absurd rfl h2
  | jbool b => exact ⟨.undefined, rfl⟩
  | num n => exact ⟨.undefined, rfl⟩
  | str s => exact ⟨.undefined, rfl⟩
  | arr elems => exact ⟨.undefined, rfl⟩
  | obj fields => exact ⟨(fields.lookup k).getD .undefined, rfl⟩

/-- One table row is built successfully from any non-nullish item, its key is
the supplied index, and absent fields default to the empty string. -/
theorem convertItem_ok (idx : Nat) (item : JSVal)
    (h1 : item ≠ JSVal.null) (h2 : item ≠ JSVal.undefined) :
    ∃ r, convertItem idx item = Except.ok r ∧ r.key = idx ∧ defaultsOk item r := by
  obtain ⟨wc, hwc⟩ := getProp_ok item "category" h1 h2
  obtain ⟨ws, hws⟩ := getProp_ok item "section" h1 h2
  obtain ⟨w1, hw1⟩ := getProp_ok item "guideline1_value" h1 h2
  obtain ⟨w2, hw2⟩ := getProp_ok item "guideline2_value" h1 h2
  obtain ⟨wd, hwd⟩ := getProp_ok item "difference" h1 h2
  refine ⟨{ key := idx, category := jsOr wc (.str ""), sectionTitle := jsOr ws (.str ""),
            guideline1_value := jsOr w1 (.str ""), guideline2_value := jsOr w2 (.str ""),
            difference := jsOr wd (.str "") }, ?_, rfl, ?_⟩
  · unfold convertItem
    rw [hwc, hws, hw1, hw2, hwd]
    rfl
  · refine ⟨?_, ?_, ?_, ?_, ?_⟩ <;> intro habs
    · rw [hwc] at habs; cases habs; rfl
    · rw [hws] at habs; cases habs; rfl
    · rw [hw1] at habs; cases habs; rfl
    · rw [hw2] at habs; cases habs; rfl
    · rw [hwd] at habs; cases habs; rfl

/-- Elaborating a list of non-nullish items succeeds, preserves length and
order, keys the rows consecutively from the start index, and defaults absent
fields. -/
theorem convertItems_spec (elems : List JSVal) : ∀ idx : Nat,
    (∀ x ∈ elems, x ≠ JSVal.null ∧ x ≠ JSVal.undefined) →
    ∃ rows, convertItems idx elems = Except.ok rows ∧
      rows.length = elems.length ∧
      ∀ i item, elems[i]? = some item →
        ∃ r, rows[i]? = some r ∧ r.key = idx + i ∧ defaultsOk item r := by
  induction elems with
  | nil =>
    intro idx _
    exact ⟨[], rfl, rfl, by intro i item h; simp at h⟩
  | cons a rest ih =>
    intro idx hne
    obtain ⟨ha1, ha2⟩ := hne a (List.mem_cons_self a rest)
    obtain ⟨r0, hr0, hkey0, hdef0⟩ := convertItem_ok idx a ha1 ha2
    obtain ⟨rows', hrows', hlen', hidx'⟩ :=
      ih (idx + 1) (fun x hx => hne x (List.mem_cons_of_mem a hx))
    refine ⟨r0 :: rows', ?_, by simp [hlen'], ?_⟩
    · unfold convertItems
      rw [hr0, hrows']
      rfl
    · intro i item hitem
      cases i with
      | zero =>
        simp only [List.getElem?_cons_zero, Option.some.injEq] at hitem
        subst hitem
        exact ⟨r0, by simp, by omega, hdef0⟩
      | succ j =>
        simp only [List.getElem?_cons_succ] at hitem ⊢
        obtain ⟨r, hr, hk, hd⟩ := hidx' j item hitem
        exact ⟨r, hr, by omega, hd⟩

/-- Claim C9 counterexample: an array containing the JSON value `null` makes
`convertToTableData` throw a TypeError instead of returning a row list, so
the normalizer is not total over arbitrary preview payloads. -/
theorem convertToTableData_throws_on_null_element :
    convertToTableData (JSVal.arr [JSVal.null]) = Except.error "TypeError" ∧
    (convertToTableData (JSVal.arr [JSVal.null])).isOk = false :=
  ⟨rfl, rfl⟩

/-- Claim C9 (amended): `convertToTableData` returns the empty list on every
input that is not an array (null and undefined included), and on every array
all of whose elements are non-nullish it returns a row list of the same
length preserving element order, with each row's key equal to its index and
each absent semantic field replaced by the empty string.  (An array holding
a nullish element instead makes the handler throw a TypeError.) -/
theorem convertToTableData_total (v : JSVal) (elems : List JSVal)
    (hv : ∀ l, v ≠ JSVal.arr l)
    (hne : ∀ x ∈ elems, x ≠ JSVal.null ∧ x ≠ JSVal.undefined) :
    convertToTableData v = Except.ok [] ∧
    ∃ rows, convertToTableData (JSVal.arr elems) = Except.ok rows ∧
      rows.length = elems.length ∧
      ∀ i item, elems[i]? = some item →
        ∃ r, rows[i]? = some r ∧ r.key = i ∧ defaultsOk item r := by
  constructor
  · cases v with
    | arr l => exact absurd rfl (hv l)
    | null => rfl
    | undefined => rfl
    | jbool b => rfl
    | num n => rfl
    | str s => rfl
    | obj fields => rfl
  · obtain ⟨rows, hrows, hlen, hidx⟩ := convertItems_spec elems 0 hne
    refine ⟨rows, hrows, hlen, ?_⟩
    intro i item hitem
    obtain ⟨r, hr, hk, hd⟩ := hidx i item hitem
    exact ⟨r, hr, by omega, hd⟩

/-- Witness for the amended C9 at a number input and a one-object array. -/
theorem convertToTableData_total_witness :
    (∀ l, JSVal.num 3 ≠ JSVal.arr l) ∧
    (∀ x ∈ [JSVal.obj [("category", JSVal.str "Added")]],
      x ≠ JSVal.null ∧ x ≠ JSVal.undefined) ∧
    (convertToTableData (JSVal.num 3) = Except.ok [] ∧
    ∃ rows, convertToTableData (JSVal.arr [JSVal.obj [("category", JSVal.str "Added")]]) = Except.ok rows ∧
      rows.length = [JSVal.obj [("category", JSVal.str "Added")]].length ∧
      ∀ i item, [JSVal.obj [("category", JSVal.str "Added")]][i]? = some item →
        ∃ r, rows[i]? = some r ∧ r.key = i ∧ defaultsOk item r) :=
  ⟨fun l h => JSVal.noConfusion h,
   fun x hx => by
     simp only [List.mem_singleton] at hx
     subst hx
     exact ⟨fun h => JSVal.noConfusion h, fun h => JSVal.noConfusion h⟩,
   convertToTableData_total (JSVal.num 3) [JSVal.obj [("category", JSVal.str "Added")]]
     (fun l h => JSVal.noConfusion h)
     (fun x hx => by
       simp only [List.mem_singleton] at hx
       subst hx
       exact ⟨fun h => JSVal.noConfusion h, fun h => JSVal.noConfusion h⟩)⟩

/-- When at most one element of the list satisfies the predicate, a
satisfying member is what `find?` returns. -/
theorem find?_eq_some_of_mem_unique {α : Type} {p : α → Bool} {l : List α} {a : α}
    (ha : a ∈ l) (hpa : p a = true) (huniq : ∀ b ∈ l, p b = true → b = a) :
    l.find? p = some a := by
  induction l with
  | nil => simp at ha
  | cons x xs ih =>
    by_cases hx : p x = true
    · have hxa : x = a := huniq x (List.mem_cons_self x xs) hx
      subst hxa
      exact List.find?_cons_of_pos xs hx
    · rw [List.find?_cons_of_neg xs (by simpa using hx)]
      apply ih
      · rcases List.mem_cons.mp ha with h | h
        · exact absurd (h ▸ hpa) hx
        · exact h
      · intro b hb hpb
        exact huniq b (List.mem_cons_of_mem x hb) hpb

/-- `find?` is stable under permutation when at most one element satisfies
the predicate. -/
theorem find?_perm_unique {α : Type} {p : α → Bool} {l1 l2 : List α} (hperm : l1.Perm l2)
    (huniq : ∀ a ∈ l2, ∀ b ∈ l2, p a = true → p b = true → a = b) :
    l1.find? p = l2.find? p := by
  cases h : l2.find? p with
  | none =>
    rw [List.find?_eq_none] at h ⊢
    intro x hx
    exact h x (hperm.mem_iff.mp hx)
  | some a =>
    have ha2 : a ∈ l2 := List.mem_of_find?_eq_some h
    have hpa : p a = true := List.find?_some h
    apply find?_eq_some_of_mem_unique (hperm.mem_iff.mpr ha2) hpa
    intro b hb hpb
    exact huniq b (hperm.mem_iff.mp hb) a ha2 hpb hpa

/-- The merge walk only depends on the index-lookup view of the result
list. -/
theorem mergeAux_find_congr (rs crs : List UnitResult)
    (hfind : ∀ i, rs.find? (fun r => r.idx == i) = crs.find? (fun r => r.idx == i)) :
    ∀ (k s : Nat), mergeAux rs s k = mergeAux crs s k := by
  intro k
  induction k with
  | zero => intro s; rfl
  | succ k ih =>
    intro s
    simp only [mergeAux]
    rw [hfind s, ih (s + 1)]

/-- A head chunk with an index below every queried index never matches, so
the merge walk may skip it. -/
theorem mergeAux_cons_skip (c : UnitResult) (cs : List UnitResult) :
    ∀ (k s : Nat), c.idx < s → mergeAux (c :: cs) s k = mergeAux cs s k := by
  intro k
  induction k with
  | zero => intro s _; rfl
  | succ k ih =>
    intro s hlt
    simp only [mergeAux]
    rw [List.find?_cons_of_neg cs (by simp; omega), ih (s + 1) (by omega)]

/-- Merging results whose indices enumerate the chunk sequence in order
concatenates their fragments in that order. -/
theorem mergeAux_inorder (crs : List UnitResult) :
    ∀ s : Nat, crs.map (fun r => r.idx) = List.range' s crs.length →
    mergeAux crs s crs.length = crs.flatMap fragmentOf := by
  induction crs with
  | nil => intro s _; rfl
  | cons c cs ih =>
    intro s h
    rw [List.length_cons, List.range'_succ, List.map_cons] at h
    have hc : c.idx = s := (List.cons.injEq _ _ _ _ ▸ h).1
    have hcs : cs.map (fun r => r.idx) = List.range' (s + 1) cs.length :=
      (List.cons.injEq _ _ _ _ ▸ h).2
    simp only [List.length_cons, mergeAux]
    rw [List.find?_cons_of_pos cs (by simp [hc])]
    rw [mergeAux_cons_skip c cs cs.length (s + 1) (by omega)]
    rw [ih (s + 1) hcs, List.flatMap_cons]

/-- Dropping the gap-producing failed chunks first and concatenating the
successful rows is the same as concatenating every fragment. -/
theorem flatMap_fragment (l : List UnitResult) :
    l.flatMap fragmentOf =
      (l.filter (fun r => r.status == UnitStatus.ok)).flatMap (fun r => r.rows) := by
  induction l with
  | nil => rfl
  | cons c cs ih =>
    cases hst : c.status with
    | ok =>
      rw [List.flatMap_cons, List.filter_cons_of_pos (by simp [hst]), List.flatMap_cons, ih]
      simp [fragmentOf, hst]
    | failed =>
      rw [List.flatMap_cons, List.filter_cons_of_neg (by simp [hst]), ih]
      simp [fragmentOf, hst]

/-- Claim C1: for every session whose chunks carry the sequence indices
`0..n-1` and every completion ordering of the unit results, the merged
result lists rows in the order of the chunks' immutable sequence indices —
original document order — never completion order. -/
theorem mergedResult_document_order (n : Nat) (crs rs : List UnitResult)
    (hidx : crs.map (fun r => r.idx) = List.range n) (hperm : rs.Perm crs) :
    mergeResults n rs =
      (crs.filter (fun r => r.status == UnitStatus.ok)).flatMap (fun r => r.rows) := by
  have hnd : (crs.map (fun r => r.idx)).Nodup := by
    rw [hidx]; exact List.nodup_range n
  have hlen : crs.length = n := by
    have h := congrArg List.length hidx
    simpa using h
  have hfind : ∀ i, rs.find? (fun r => r.idx == i) = crs.find? (fun r => r.idx == i) := by
    intro i
    apply find?_perm_unique hperm
    intro a ha b hb hpa hpb
    apply List.inj_on_of_nodup_map hnd ha hb
    have hai : a.idx = i := by simpa using hpa
    have hbi : b.idx = i := by simpa using hpb
    rw [hai, hbi]
  unfold mergeResults
  rw [mergeAux_find_congr rs crs hfind n 0, ← hlen]
  rw [mergeAux_inorder crs 0 (by rw [hidx, hlen, List.range_eq_range'])]
  exact flatMap_fragment crs

/-- Witness for C1: two chunks whose results complete in reversed order are
still merged in document order. -/
theorem mergedResult_document_order_witness :
    ([UnitResult.mk 0 UnitStatus.ok [IngestRow.mk "A" "a" "first"],
      UnitResult.mk 1 UnitStatus.ok [IngestRow.mk "B" "b" "second"]].map (fun r => r.idx) =
        List.range 2) ∧
    ([UnitResult.mk 1 UnitStatus.ok [IngestRow.mk "B" "b" "second"],
      UnitResult.mk 0 UnitStatus.ok [IngestRow.mk "A" "a" "first"]].Perm
      [UnitResult.mk 0 UnitStatus.ok [IngestRow.mk "A" "a" "first"],
       UnitResult.mk 1 UnitStatus.ok [IngestRow.mk "B" "b" "second"]]) ∧
    (mergeResults 2
      [UnitResult.mk 1 UnitStatus.ok [IngestRow.mk "B" "b" "second"],
       UnitResult.mk 0 UnitStatus.ok [IngestRow.mk "A" "a" "first"]] =
      ([UnitResult.mk 0 UnitStatus.ok [IngestRow.mk "A" "a" "first"],
        UnitResult.mk 1 UnitStatus.ok [IngestRow.mk "B" "b" "second"]].filter
          (fun r => r.status == UnitStatus.ok)).flatMap (fun r => r.rows)) :=
  ⟨rfl,
   List.Perm.swap (UnitResult.mk 0 UnitStatus.ok [IngestRow.mk "A" "a" "first"])
     (UnitResult.mk 1 UnitStatus.ok [IngestRow.mk "B" "b" "second"]) [],
   mergedResult_document_order 2
     [UnitResult.mk 0 UnitStatus.ok [IngestRow.mk "A" "a" "first"],
      UnitResult.mk 1 UnitStatus.ok [IngestRow.mk "B" "b" "second"]]
     [UnitResult.mk 1 UnitStatus.ok [IngestRow.mk "B" "b" "second"],
      UnitResult.mk 0 UnitStatus.ok [IngestRow.mk "A" "a" "first"]]
     rfl
     (List.Perm.swap (UnitResult.mk 0 UnitStatus.ok [IngestRow.mk "A" "a" "first"])
       (UnitResult.mk 1 UnitStatus.ok [IngestRow.mk "B" "b" "second"]) [])⟩

/-- With positive page capacity and enough fuel, the page chunks concatenate
back to the document. -/
theorem chunkPagesAux_flatten {α : Type} (p : Nat) (hp : 0 < p) :
    ∀ (fuel : Nat) (doc : List α), doc.length ≤ fuel →
    (chunkPagesAux p fuel doc).flatten = doc := by
  intro fuel
  induction fuel with
  | zero =>
    intro doc hlen
    have : doc = [] := List.eq_nil_of_length_eq_zero (Nat.le_zero.mp hlen)
    subst this
    rfl
  | succ fuel ih =>
    intro doc hlen
    by_cases hd : doc.isEmpty
    · simp only [chunkPagesAux, hd, if_pos]
      rw [List.isEmpty_iff] at hd
      simp [hd]
    · simp only [chunkPagesAux, hd, if_neg, Bool.false_eq_true, not_false_iff]
      rw [List.flatten_cons]
      rw [ih (doc.drop p) ?_]
      · exact List.take_append_drop p doc
      · rw [List.length_drop]
        rw [List.isEmpty_iff] at hd
        have : 0 < doc.length := List.length_pos.mpr hd
        omega

/-- The first span produced from offset `start`, when any, begins at
`start`. -/
theorem chunkSpansAux_head (size overlap len : Nat) :
    ∀ (fuel start : Nat), ∀ sp ∈ (chunkSpansAux size overlap len fuel start).head?, sp.1 = start := by
  intro fuel
  cases fuel with
  | zero => intro start sp hsp; simp [chunkSpansAux] at hsp
  | succ fuel =>
    intro start sp hsp
    simp only [chunkSpansAux] at hsp
    by_cases h1 : len ≤ start
    · simp [h1] at hsp
    · by_cases h2 : len ≤ start + size
      · simp [h1, h2] at hsp
        rw [← hsp]
      · simp [h1, h2] at hsp
        rw [← hsp]

/-- With positive step and enough fuel, every token position from the start
offset onward is inside some produced span. -/
theorem chunkSpansAux_cover (size overlap len : Nat) (hov : overlap < size) :
    ∀ (fuel start pos : Nat), start ≤ pos → pos < len → len - start ≤ fuel →
    ∃ sp ∈ chunkSpansAux size overlap len fuel start, sp.1 ≤ pos ∧ pos < sp.2 := by
  intro fuel
  induction fuel with
  | zero => intro start pos h1 h2 h3; omega
  | succ fuel ih =>
    intro start pos h1 h2 h3
    have hns : ¬ len ≤ start := by omega
    by_cases hfit : len ≤ start + size
    · refine ⟨(start, len), ?_, h1, h2⟩
      simp [chunkSpansAux, hns, hfit]
    · by_cases hin : pos < start + size
      · refine ⟨(start, start + size), ?_, h1, hin⟩
        simp [chunkSpansAux, hns, hfit]
      · obtain ⟨sp, hsp, hle, hlt⟩ :=
          ih (start + (size - overlap)) pos (by omega) h2 (by omega)
        refine ⟨sp, ?_, hle, hlt⟩
        simp only [chunkSpansAux, if_neg hns, if_neg hfit]
        exact List.mem_cons_of_mem _ hsp

/-- Consecutive spans are contiguous: each next span starts no later than
the previous span's end (exactly `overlap` tokens before it). -/
theorem chunkSpansAux_chain (size overlap len : Nat) (hov : overlap < size) :
    ∀ (fuel start : Nat),
    List.Chain' (fun a b : Nat × Nat => b.1 ≤ a.2) (chunkSpansAux size overlap len fuel start) := by
  intro fuel
  induction fuel with
  | zero => intro start; simp [chunkSpansAux]
  | succ fuel ih =>
    intro start
    simp only [chunkSpansAux]
    by_cases h1 : len ≤ start
    · simp [h1]
    · by_cases h2 : len ≤ start + size
      · simp [h1, h2]
      · simp only [if_neg h1, if_neg h2]
        rw [List.chain'_cons']
        refine ⟨?_, ih (start + (size - overlap))⟩
        intro y hy
        have := chunkSpansAux_head size overlap len fuel (start + (size - overlap)) y hy
        simp only [this]
        omega

/-- Claim C5: for every non-empty readable document and every chunk policy —
page-count-based with `p` pages per chunk, or token-count-based with any
chunk size and overlap setting with `overlap < size` — the ordered chunk
sequence is contiguous and its concatenated spans cover the entire original
document with no gaps. -/
theorem chunker_covers_document {α : Type} (doc : List α) (p size overlap len : Nat)
    (hp : 0 < p) (hov : overlap < size) :
    (chunkPages p doc).flatten = doc ∧
    (∀ pos, pos < len → ∃ sp ∈ chunkSpans size overlap len, sp.1 ≤ pos ∧ pos < sp.2) ∧
    List.Chain' (fun a b : Nat × Nat => b.1 ≤ a.2) (chunkSpans size overlap len) := by
  refine ⟨?_, ?_, ?_⟩
  · exact chunkPagesAux_flatten p hp doc.length doc (Nat.le_refl _)
  · intro pos hpos
    exact chunkSpansAux_cover size overlap len hov len 0 pos (Nat.zero_le pos) hpos (by omega)
  · exact chunkSpansAux_chain size overlap len hov len 0

/-- Witness for C5: a three-page document in two-page chunks, and a
five-token document in spans of three tokens with one token of overlap. -/
theorem chunker_covers_document_witness :
    0 < 2 ∧ 1 < 3 ∧
    ((chunkPages 2 [10, 20, 30]).flatten = [10, 20, 30] ∧
    (∀ pos, pos < 5 → ∃ sp ∈ chunkSpans 3 1 5, sp.1 ≤ pos ∧ pos < sp.2) ∧
    List.Chain' (fun a b : Nat × Nat => b.1 ≤ a.2) (chunkSpans 3 1 5)) :=
  ⟨by decide, by decide,
   chunker_covers_document [10, 20, 30] 2 3 1 5 (by decide) (by decide)⟩

/-- A leading successful chunk does not make an outcome list fatal. -/
theorem hasFatal_cons_success (rows : List IngestRow) (rest : List Outcome) :
    hasFatal (Outcome.success rows :: rest) = hasFatal rest := by
  simp [hasFatal]

/-- A leading exhausted chunk does not make an outcome list fatal. -/
theorem hasFatal_cons_exhausted (rest : List Outcome) :
    hasFatal (Outcome.exhausted :: rest) = hasFatal rest := by
  simp [hasFatal]

/-- A leading terminal error makes an outcome list fatal. -/
theorem hasFatal_cons_fatal (e : FatalErr) (rest : List Outcome) :
    hasFatal (Outcome.fatal e :: rest) = true := by
  simp [hasFatal]

/-- Fatal-free scheduling completes one unit per outcome. -/
theorem runJobAux_completed (n : Nat) :
    ∀ (outs : List Outcome) (st : JobState), hasFatal outs = false →
    (runJobAux n st outs).completed = st.completed + outs.length := by
  intro outs
  induction outs with
  | nil => intro st _; simp [runJobAux]
  | cons o rest ih =>
    intro st hnf
    cases o with
    | fatal e => rw [hasFatal_cons_fatal] at hnf; exact absurd hnf (by simp)
    | success rows =>
      rw [hasFatal_cons_success] at hnf
      simp only [runJobAux]
      rw [ih _ hnf]
      simp [completeUnit]
      omega
    | exhausted =>
      rw [hasFatal_cons_exhausted] at hnf
      simp only [runJobAux]
      rw [ih _ hnf]
      simp [completeUnit]
      omega

/-- Fatal-free scheduling records one warning per exhausted chunk. -/
theorem runJobAux_warnings (n : Nat) :
    ∀ (outs : List Outcome) (st : JobState), hasFatal outs = false →
    (runJobAux n st outs).warnings = st.warnings + countExhausted outs := by
  intro outs
  induction outs with
  | nil => intro st _; simp [runJobAux, countExhausted]
  | cons o rest ih =>
    intro st hnf
    cases o with
    | fatal e => rw [hasFatal_cons_fatal] at hnf; exact absurd hnf (by simp)
    | success rows =>
      rw [hasFatal_cons_success] at hnf
      simp only [runJobAux]
      rw [ih _ hnf]
      simp [completeUnit, countExhausted]
    | exhausted =>
      rw [hasFatal_cons_exhausted] at hnf
      simp only [runJobAux]
      rw [ih _ hnf]
      simp [completeUnit, countExhausted]
      omega

/-- Fatal-free scheduling appends exactly the unit results of the outcomes,
indexed consecutively from the number of results already recorded. -/
theorem runJobAux_results (n : Nat) :
    ∀ (outs : List Outcome) (st : JobState), hasFatal outs = false →
    (runJobAux n st outs).results = st.results ++ buildResults st.results.length outs := by
  intro outs
  induction outs with
  | nil => intro st _; simp [runJobAux, buildResults]
  | cons o rest ih =>
    intro st hnf
    cases o with
    | fatal e => rw [hasFatal_cons_fatal] at hnf; exact absurd hnf (by simp)
    | success rows =>
      rw [hasFatal_cons_success] at hnf
      simp only [runJobAux]
      rw [ih _ hnf]
      simp only [completeUnit, buildResults, List.length_append, List.length_cons,
        List.length_nil, List.append_assoc, List.singleton_append]
      rfl
    | exhausted =>
      rw [hasFatal_cons_exhausted] at hnf
      simp only [runJobAux]
      rw [ih _ hnf]
      simp only [completeUnit, buildResults, List.length_append, List.length_cons,
        List.length_nil, List.append_assoc, List.singleton_append]
      rfl

/-- Fatal-free scheduling publishes exactly the floor-formula progress value
of each successive completed count. -/
theorem runJobAux_published (n : Nat) :
    ∀ (outs : List Outcome) (st : JobState), hasFatal outs = false →
    (runJobAux n st outs).published =
      st.published ++ (List.range' (st.completed + 1) outs.length).map (fun c => 100 * c / n) := by
  intro outs
  induction outs with
  | nil => intro st _; simp [runJobAux]
  | cons o rest ih =>
    intro st hnf
    cases o with
    | fatal e => rw [hasFatal_cons_fatal] at hnf; exact absurd hnf (by simp)
    | success rows =>
      rw [hasFatal_cons_success] at hnf
      simp only [runJobAux]
      rw [ih _ hnf]
      simp only [completeUnit, List.length_cons, List.range'_succ, List.map_cons,
        List.append_assoc, List.singleton_append]
    | exhausted =>
      rw [hasFatal_cons_exhausted] at hnf
      simp only [runJobAux]
      rw [ih _ hnf]
      simp only [completeUnit, List.length_cons, List.range'_succ, List.map_cons,
        List.append_assoc, List.singleton_append]

/-- A fatal-free, non-empty outcome list leaves the session running at the
end of the scheduler loop. -/
theorem runJobAux_status (n : Nat) :
    ∀ (outs : List Outcome) (st : JobState), hasFatal outs = false → outs ≠ [] →
    (runJobAux n st outs).status = SessionStatus.running := by
  intro outs
  induction outs with
  | nil => intro st _ hne; exact absurd rfl hne
  | cons o rest ih =>
    intro st hnf _
    cases o with
    | fatal e => rw [hasFatal_cons_fatal] at hnf; exact absurd hnf (by simp)
    | success rows =>
      rw [hasFatal_cons_success] at hnf
      cases rest with
      | nil => simp [runJobAux, completeUnit]
      | cons o2 rest2 =>
        simp only [runJobAux]
        exact ih (completeUnit n true rows st) hnf (by simp)
    | exhausted =>
      rw [hasFatal_cons_exhausted] at hnf
      cases rest with
      | nil => simp [runJobAux, completeUnit]
      | cons o2 rest2 =>
        simp only [runJobAux]
        exact ih (completeUnit n false [] st) hnf (by simp)

/-- The scheduler loop never writes the merged result slot. -/
theorem runJobAux_result_slot (n : Nat) :
    ∀ (outs : List Outcome) (st : JobState), (runJobAux n st outs).result = st.result := by
  intro outs
  induction outs with
  | nil => intro st; rfl
  | cons o rest ih =>
    intro st
    cases o with
    | fatal e => rfl
    | success rows => simp only [runJobAux]; rw [ih]; rfl
    | exhausted => simp only [runJobAux]; rw [ih]; rfl

/-- One unit completion preserves the progress-tracker invariant: the newly
published value is the floor formula of the bumped counter, which is at
least the previous progress. -/
theorem completeUnit_inv (n : Nat) (ok : Bool) (rows : List IngestRow) (st : JobState)
    (h : TrackerInv n st) : TrackerInv n (completeUnit n ok rows st) := by
  obtain ⟨hchain, hlast, hprog⟩ := h
  have hmono : st.progress ≤ 100 * (st.completed + 1) / n := by
    rw [hprog]
    exact Nat.div_le_div_right (Nat.mul_le_mul_left 100 (Nat.le_succ _))
  have hpub : (completeUnit n ok rows st).published =
      st.published ++ [100 * (st.completed + 1) / n] := rfl
  refine ⟨?_, ?_, rfl⟩
  · rw [hpub, List.chain'_append]
    refine ⟨hchain, List.chain'_singleton _, ?_⟩
    intro x hx y hy
    simp only [List.head?_cons, Option.mem_def, Option.some.injEq] at hy
    subst hy
    exact le_trans (hlast x hx) hmono
  · intro x hx
    rw [hpub, List.getLast?_concat] at hx
    simp only [Option.mem_def, Option.some.injEq] at hx
    subst hx
    exact Nat.le_refl _

/-- The scheduler loop preserves the progress-tracker invariant. -/
theorem runJobAux_inv (n : Nat) :
    ∀ (outs : List Outcome) (st : JobState), TrackerInv n st →
    TrackerInv n (runJobAux n st outs) := by
  intro outs
  induction outs with
  | nil => intro st h; exact h
  | cons o rest ih =>
    intro st h
    cases o with
    | fatal e => exact ⟨h.1, h.2.1, h.2.2⟩
    | success rows => exact ih _ (completeUnit_inv n true rows st h)
    | exhausted => exact ih _ (completeUnit_inv n false [] st h)

/-- A fresh session satisfies the progress-tracker invariant. -/
theorem initialJobState_inv (n : Nat) : TrackerInv n initialJobState := by
  refine ⟨List.chain'_nil, ?_, by simp [initialJobState]⟩
  intro x hx
  simp [initialJobState] at hx

/-- A terminal provider error halts the scheduler loop at once: the state is
the one reached after the fatal-free prefix, marked failed with the error
detail populated, and the outcomes after the error are never touched. -/
theorem runJobAux_fatal_halt (n : Nat) (e : FatalErr) (post : List Outcome) :
    ∀ (pre : List Outcome) (st : JobState), hasFatal pre = false →
    runJobAux n st (pre ++ Outcome.fatal e :: post) =
      { runJobAux n st pre with status := .failed, errorDetail := some e } := by
  intro pre
  induction pre with
  | nil => intro st _; rfl
  | cons o rest ih =>
    intro st hnf
    cases o with
    | fatal e2 => rw [hasFatal_cons_fatal] at hnf; exact absurd hnf (by simp)
    | success rows =>
      rw [hasFatal_cons_success] at hnf
      simp only [List.cons_append, runJobAux]
      exact ih _ hnf
    | exhausted =>
      rw [hasFatal_cons_exhausted] at hnf
      simp only [List.cons_append, runJobAux]
      exact ih _ hnf

/-- The unit results of a fatal-free outcome list carry consecutive sequence
indices from the base. -/
theorem buildResults_map_idx :
    ∀ (outs : List Outcome) (base : Nat), hasFatal outs = false →
    (buildResults base outs).map (fun r => r.idx) = List.range' base outs.length := by
  intro outs
  induction outs with
  | nil => intro base _; rfl
  | cons o rest ih =>
    intro base hnf
    cases o with
    | fatal e => rw [hasFatal_cons_fatal] at hnf; exact absurd hnf (by simp)
    | success rows =>
      rw [hasFatal_cons_success] at hnf
      simp only [buildResults, List.map_cons, List.length_cons, List.range'_succ]
      rw [ih (base + 1) hnf]
    | exhausted =>
      rw [hasFatal_cons_exhausted] at hnf
      simp only [buildResults, List.map_cons, List.length_cons, List.range'_succ]
      rw [ih (base + 1) hnf]

/-- For a fatal-free outcome list, one unit result is built per outcome. -/
theorem buildResults_length (outs : List Outcome) (base : Nat) (hnf : hasFatal outs = false) :
    (buildResults base outs).length = outs.length := by
  have h := congrArg List.length (buildResults_map_idx outs base hnf)
  simpa using h

/-- Concatenating the built results' fragments in order yields exactly the
successful chunks' rows in document order. -/
theorem buildResults_flatMap :
    ∀ (outs : List Outcome) (base : Nat), hasFatal outs = false →
    (buildResults base outs).flatMap fragmentOf = successRows outs := by
  intro outs
  induction outs with
  | nil => intro base _; rfl
  | cons o rest ih =>
    intro base hnf
    cases o with
    | fatal e => rw [hasFatal_cons_fatal] at hnf; exact absurd hnf (by simp)
    | success rows =>
      rw [hasFatal_cons_success] at hnf
      simp only [buildResults, List.flatMap_cons, successRows]
      rw [ih (base + 1) hnf]
      rfl
    | exhausted =>
      rw [hasFatal_cons_exhausted] at hnf
      simp only [buildResults, List.flatMap_cons, successRows]
      rw [ih (base + 1) hnf]
      rfl

/-- Finalizing a session that was not felled by a terminal error completes
it, publishing the terminal progress value and storing the merged result. -/
theorem finalizeJob_not_failed (n : Nat) (st : JobState) (h : ¬ st.status = SessionStatus.failed) :
    finalizeJob n st =
      { st with
        status := .completed
        progress := 100 * st.completed / n
        published := st.published ++ [100 * st.completed / n]
        result := some (mergeResults n st.results) } := by
  unfold finalizeJob
  rw [if_neg h]

/-- Finalization keeps the published progress sequence non-decreasing. -/
theorem finalizeJob_chain (n : Nat) (st : JobState) (h : TrackerInv n st) :
    List.Chain' (· ≤ ·) (finalizeJob n st).published := by
  unfold finalizeJob
  by_cases hf : st.status = SessionStatus.failed
  · rw [if_pos hf]; exact h.1
  · rw [if_neg hf]
    show List.Chain' (· ≤ ·) (st.published ++ [100 * st.completed / n])
    rw [List.chain'_append]
    refine ⟨h.1, List.chain'_singleton _, ?_⟩
    intro x hx y hy
    simp only [List.head?_cons, Option.mem_def, Option.some.injEq] at hy
    subst hy
    exact le_trans (h.2.1 x hx) (le_of_eq h.2.2)

/-- Claim C2: for every session, the sequence of progress values published
by the Progress Tracker is monotonically non-decreasing; for a session that
is not felled by a terminal error, the value after the k-th unit completion
is exactly `floor(100 * k / totalUnits)` and the terminal completion event
delivers exactly 100. -/
theorem progressTracker_monotone_terminal (outs : List Outcome) (hpos : 0 < outs.length) :
    List.Chain' (· ≤ ·) (runJob outs).published ∧
    (hasFatal outs = false →
      (runJob outs).published =
        (List.range' 1 outs.length).map (fun c => 100 * c / outs.length) ++ [100] ∧
      (runJob outs).published.getLast? = some 100) := by
  constructor
  · show List.Chain' (· ≤ ·)
      (finalizeJob outs.length (runJobAux outs.length initialJobState outs)).published
    exact finalizeJob_chain outs.length _
      (runJobAux_inv outs.length outs initialJobState (initialJobState_inv outs.length))
  · intro hnf
    have hne : outs ≠ [] := by
      intro h
      rw [h] at hpos
      simp at hpos
    have hst := runJobAux_status outs.length outs initialJobState hnf hne
    have hcomp := runJobAux_completed outs.length outs initialJobState hnf
    have hpub := runJobAux_published outs.length outs initialJobState hnf
    have hpub2 : (runJobAux outs.length initialJobState outs).published =
        (List.range' 1 outs.length).map (fun c => 100 * c / outs.length) := by
      rw [hpub]
      simp [initialJobState]
    have hval : 100 * (runJobAux outs.length initialJobState outs).completed / outs.length = 100 := by
      rw [hcomp]
      show 100 * (0 + outs.length) / outs.length = 100
      rw [Nat.zero_add]
      exact Nat.mul_div_cancel 100 hpos
    have hrun : runJob outs =
        { runJobAux outs.length initialJobState outs with
          status := .completed
          progress := 100 * (runJobAux outs.length initialJobState outs).completed / outs.length
          published := (runJobAux outs.length initialJobState outs).published ++
            [100 * (runJobAux outs.length initialJobState outs).completed / outs.length]
          result := some (mergeResults outs.length (runJobAux outs.length initialJobState outs).results) } := by
      unfold runJob
      exact finalizeJob_not_failed outs.length _ (by rw [hst]; simp)
    rw [hrun]
    constructor
    · show (runJobAux outs.length initialJobState outs).published ++
        [100 * (runJobAux outs.length initialJobState outs).completed / outs.length] =
        (List.range' 1 outs.length).map (fun c => 100 * c / outs.length) ++ [100]
      rw [hpub2, hval]
    · show ((runJobAux outs.length initialJobState outs).published ++
        [100 * (runJobAux outs.length initialJobState outs).completed / outs.length]).getLast? =
        some 100
      rw [hval, List.getLast?_concat]

/-- Witness for C2: a two-chunk session with one success and one exhausted
failure publishes 50 then 100, non-decreasing, ending at exactly 100. -/
theorem progressTracker_monotone_terminal_witness :
    0 < ([Outcome.success [], Outcome.exhausted] : List Outcome).length ∧
    (List.Chain' (· ≤ ·) (runJob [Outcome.success [], Outcome.exhausted]).published ∧
    (hasFatal [Outcome.success [], Outcome.exhausted] = false →
      (runJob [Outcome.success [], Outcome.exhausted]).published =
        (List.range' 1 ([Outcome.success [], Outcome.exhausted] : List Outcome).length).map
          (fun c => 100 * c / ([Outcome.success [], Outcome.exhausted] : List Outcome).length) ++ [100] ∧
      (runJob [Outcome.success [], Outcome.exhausted]).published.getLast? = some 100)) :=
  ⟨by decide, progressTracker_monotone_terminal [Outcome.success [], Outcome.exhausted] (by decide)⟩

/-- Claim C3: a job of N chunks in which exactly k chunks (0 < k < N)
exhaust their retries and no terminal provider error occurs still reaches
progress 100 and completed status, its merged result is the content of the
N-k successful chunks in document order, and its warning count is exactly
k — isolated chunk failures never fail the whole job. -/
theorem partialFailure_job_completes (outs : List Outcome) (k : Nat)
    (hnf : hasFatal outs = false) (hk : countExhausted outs = k)
    (h0 : 0 < k) (hkN : k < outs.length) :
    (runJob outs).status = SessionStatus.completed ∧
    (runJob outs).progress = 100 ∧
    (runJob outs).warnings = k ∧
    (runJob outs).result = some (successRows outs) := by
  have hpos : 0 < outs.length := by omega
  have hne : outs ≠ [] := by
    intro h
    rw [h] at hpos
    simp at hpos
  have hst := runJobAux_status outs.length outs initialJobState hnf hne
  have hcomp := runJobAux_completed outs.length outs initialJobState hnf
  have hwarn := runJobAux_warnings outs.length outs initialJobState hnf
  have hres := runJobAux_results outs.length outs initialJobState hnf
  have hrun : runJob outs =
      { runJobAux outs.length initialJobState outs with
        status := .completed
        progress := 100 * (runJobAux outs.length initialJobState outs).completed / outs.length
        published := (runJobAux outs.length initialJobState outs).published ++
          [100 * (runJobAux outs.length initialJobState outs).completed / outs.length]
        result := some (mergeResults outs.length (runJobAux outs.length initialJobState outs).results) } := by
    unfold runJob
    exact finalizeJob_not_failed outs.length _ (by rw [hst]; simp)
  rw [hrun]
  have hres2 : (runJobAux outs.length initialJobState outs).results = buildResults 0 outs := by
    rw [hres]
    simp [initialJobState]
  have hmerge : mergeResults outs.length (buildResults 0 outs) = successRows outs := by
    unfold mergeResults
    have hlen := buildResults_length outs 0 hnf
    have hmap := buildResults_map_idx outs 0 hnf
    rw [show outs.length = (buildResults 0 outs).length from hlen.symm]
    rw [mergeAux_inorder _ 0 (by rw [hmap, hlen])]
    exact buildResults_flatMap outs 0 hnf
  refine ⟨rfl, ?_, ?_, ?_⟩
  · show 100 * (runJobAux outs.length initialJobState outs).completed / outs.length = 100
    rw [hcomp]
    show 100 * (0 + outs.length) / outs.length = 100
    rw [Nat.zero_add]
    exact Nat.mul_div_cancel 100 hpos
  · show (runJobAux outs.length initialJobState outs).warnings = k
    rw [hwarn, hk]
    simp [initialJobState]
  · show some (mergeResults outs.length (runJobAux outs.length initialJobState outs).results) =
      some (successRows outs)
    rw [hres2, hmerge]

/-- Witness for C3: of three chunks exactly one exhausts its retries; the
job completes at 100 with one warning and the other two chunks' rows. -/
theorem partialFailure_job_completes_witness :
    hasFatal [Outcome.success [IngestRow.mk "A" "a" "s1"], Outcome.exhausted,
      Outcome.success [IngestRow.mk "B" "b" "s2"]] = false ∧
    countExhausted [Outcome.success [IngestRow.mk "A" "a" "s1"], Outcome.exhausted,
      Outcome.success [IngestRow.mk "B" "b" "s2"]] = 1 ∧
    0 < 1 ∧
    1 < ([Outcome.success [IngestRow.mk "A" "a" "s1"], Outcome.exhausted,
      Outcome.success [IngestRow.mk "B" "b" "s2"]] : List Outcome).length ∧
    ((runJob [Outcome.success [IngestRow.mk "A" "a" "s1"], Outcome.exhausted,
        Outcome.success [IngestRow.mk "B" "b" "s2"]]).status = SessionStatus.completed ∧
    (runJob [Outcome.success [IngestRow.mk "A" "a" "s1"], Outcome.exhausted,
        Outcome.success [IngestRow.mk "B" "b" "s2"]]).progress = 100 ∧
    (runJob [Outcome.success [IngestRow.mk "A" "a" "s1"], Outcome.exhausted,
        Outcome.success [IngestRow.mk "B" "b" "s2"]]).warnings = 1 ∧
    (runJob [Outcome.success [IngestRow.mk "A" "a" "s1"], Outcome.exhausted,
        Outcome.success [IngestRow.mk "B" "b" "s2"]]).result =
      some (successRows [Outcome.success [IngestRow.mk "A" "a" "s1"], Outcome.exhausted,
        Outcome.success [IngestRow.mk "B" "b" "s2"]])) :=
  ⟨by decide, by decide, by decide, by decide,
   partialFailure_job_completes
     [Outcome.success [IngestRow.mk "A" "a" "s1"], Outcome.exhausted,
      Outcome.success [IngestRow.mk "B" "b" "s2"]] 1
     (by decide) (by decide) (by decide) (by decide)⟩

/-- Claim C4: once a terminal provider error (AuthError or QuotaExceeded)
occurs on a chunk, no further chunk of that session is dispatched or
processed — the queued outcomes after the error leave the recorded unit
results and completed count at the fatal-free prefix's — the session status
becomes failed with the error detail populated, its progress is frozen at
the value it had when the error occurred, and no merged result is ever
produced. -/
theorem fatalError_cancels_session (pre post : List Outcome) (e : FatalErr)
    (hnf : hasFatal pre = false) :
    (runJob (pre ++ Outcome.fatal e :: post)).status = SessionStatus.failed ∧
    (runJob (pre ++ Outcome.fatal e :: post)).errorDetail = some e ∧
    (runJob (pre ++ Outcome.fatal e :: post)).results.length = pre.length ∧
    (runJob (pre ++ Outcome.fatal e :: post)).completed = pre.length ∧
    (runJob (pre ++ Outcome.fatal e :: post)).progress =
      100 * pre.length / (pre ++ Outcome.fatal e :: post).length ∧
    (runJob (pre ++ Outcome.fatal e :: post)).result = none := by
  have hhalt := runJobAux_fatal_halt (pre ++ Outcome.fatal e :: post).length e post pre
    initialJobState hnf
  have hrun : runJob (pre ++ Outcome.fatal e :: post) =
      { runJobAux (pre ++ Outcome.fatal e :: post).length initialJobState pre with
        status := .failed, errorDetail := some e } := by
    unfold runJob
    rw [hhalt]
    unfold finalizeJob
    rw [if_pos rfl]
  rw [hrun]
  have hcomp := runJobAux_completed (pre ++ Outcome.fatal e :: post).length pre
    initialJobState hnf
  have hres := runJobAux_results (pre ++ Outcome.fatal e :: post).length pre
    initialJobState hnf
  have hinv := runJobAux_inv (pre ++ Outcome.fatal e :: post).length pre initialJobState
    (initialJobState_inv _)
  have hslot := runJobAux_result_slot (pre ++ Outcome.fatal e :: post).length pre initialJobState
  refine ⟨rfl, rfl, ?_, ?_, ?_, ?_⟩
  · show (runJobAux (pre ++ Outcome.fatal e :: post).length initialJobState pre).results.length =
      pre.length
    rw [hres]
    show (buildResults 0 pre).length = pre.length
    exact buildResults_length pre 0 hnf
  · show (runJobAux (pre ++ Outcome.fatal e :: post).length initialJobState pre).completed =
      pre.length
    rw [hcomp]
    simp [initialJobState]
  · show (runJobAux (pre ++ Outcome.fatal e :: post).length initialJobState pre).progress =
      100 * pre.length / (pre ++ Outcome.fatal e :: post).length
    rw [hinv.2.2, hcomp]
    simp [initialJobState]
  · show (runJobAux (pre ++ Outcome.fatal e :: post).length initialJobState pre).result = none
    rw [hslot]
    rfl

/-- Witness for C4: an AuthError on the second chunk freezes a three-chunk
session after one completed unit, and the queued third chunk is never
processed. -/
theorem fatalError_cancels_session_witness :
    hasFatal [Outcome.success [IngestRow.mk "A" "a" "s1"]] = false ∧
    ((runJob ([Outcome.success [IngestRow.mk "A" "a" "s1"]] ++
        Outcome.fatal FatalErr.authError :: [Outcome.exhausted])).status = SessionStatus.failed ∧
    (runJob ([Outcome.success [IngestRow.mk "A" "a" "s1"]] ++
        Outcome.fatal FatalErr.authError :: [Outcome.exhausted])).errorDetail =
      some FatalErr.authError ∧
    (runJob ([Outcome.success [IngestRow.mk "A" "a" "s1"]] ++
        Outcome.fatal FatalErr.authError :: [Outcome.exhausted])).results.length =
      ([Outcome.success [IngestRow.mk "A" "a" "s1"]] : List Outcome).length ∧
    (runJob ([Outcome.success [IngestRow.mk "A" "a" "s1"]] ++
        Outcome.fatal FatalErr.authError :: [Outcome.exhausted])).completed =
      ([Outcome.success [IngestRow.mk "A" "a" "s1"]] : List Outcome).length ∧
    (runJob ([Outcome.success [IngestRow.mk "A" "a" "s1"]] ++
        Outcome.fatal FatalErr.authError :: [Outcome.exhausted])).progress =
      100 * ([Outcome.success [IngestRow.mk "A" "a" "s1"]] : List Outcome).length /
        ([Outcome.success [IngestRow.mk "A" "a" "s1"]] ++
          Outcome.fatal FatalErr.authError :: [Outcome.exhausted]).length ∧
    (runJob ([Outcome.success [IngestRow.mk "A" "a" "s1"]] ++
        Outcome.fatal FatalErr.authError :: [Outcome.exhausted])).result = none) :=
  ⟨by decide,
   fatalError_cancels_session [Outcome.success [IngestRow.mk "A" "a" "s1"]]
     [Outcome.exhausted] FatalErr.authError (by decide)⟩
